import Mathlib

/-!
Shallow embedding of `crates/js-component-bindgen/src/configuration.rs`:
the element-path resolver, the configuration store (`Configuration::get`,
`Configuration::get_member`), the `ElementConfig` tagged union with its six
flag accessors, and the four structural type-shape classifiers
(`value_type_of_list_of_tuple_interpretable_as_dictionary`,
`payload_type_of_option_result_of_next_method_of_resource`,
`variant_case_type_defs_where_they_are_all_handles`, `methods_of_resource`).

The type graph (`wit_parser`'s `Resolve`) is modelled with id-indexed lists;
arena indexing (`resolve.types[id]` etc.), which panics in Rust on a dangling
id, is modelled in the `Except String` monad, with `Except.error` standing for
a panic. The source's own `Option` results stay `Option` inside the `ok` arm.
-/

/-- Ids into the arenas of a `Resolve` (Rust `TypeId`, `InterfaceId`, ...). -/
abbrev TypeId := Nat

abbrev InterfaceId := Nat

abbrev PackageId := Nat

abbrev WorldId := Nat

/-- `wit_parser::Type`: either a primitive or a reference into the type arena. -/
inductive Ty where
  | bool
  | u8
  | u16
  | u32
  | u64
  | s8
  | s16
  | s32
  | s64
  | f32
  | f64
  | char
  | string
  | id (i : TypeId)
deriving DecidableEq, Repr

/-- `wit_parser::Handle`: an owned or borrowed handle to a resource type. -/
inductive Handle where
  | own (i : TypeId)
  | borrow (i : TypeId)
deriving DecidableEq, Repr

/-- `wit_parser::Case`: a variant case with a name and an optional payload type. -/
structure Case where
  name : String
  ty : Option Ty
deriving DecidableEq, Repr

/-- `wit_parser::TypeDefKind` (the constructors this module inspects, plus
representatives of the remaining arms so the catch-all branches are real). -/
inductive TypeDefKind where
  | record
  | resource
  | flags
  | tuple (types : List Ty)
  | variant (cases : List Case)
  | enum
  | option (t : Ty)
  | result
  | list (t : Ty)
  | handle (h : Handle)
  | future
  | stream
  | typeAlias (t : Ty)
  | unknown
deriving DecidableEq, Repr

/-- `wit_parser::TypeOwner`. -/
inductive TypeOwner where
  | world (w : WorldId)
  | interface (i : InterfaceId)
  | none
deriving DecidableEq, Repr

/-- `wit_parser::TypeDef`. -/
structure TypeDef where
  name : Option String
  kind : TypeDefKind
  owner : TypeOwner
deriving DecidableEq, Repr

/-- `wit_parser::PackageName`; the field `ns` models Rust's `namespace`. -/
structure PackageName where
  ns : String
  name : String
deriving DecidableEq, Repr

/-- `wit_parser::Package`. -/
structure Package where
  name : PackageName
deriving DecidableEq, Repr

/-- `wit_parser::World` (the one field this module reads). -/
structure World where
  name : String
deriving DecidableEq, Repr

/-- `wit_parser::FunctionKind`. -/
inductive FunctionKind where
  | freestanding
  | method (t : TypeId)
  | static (t : TypeId)
  | constructor (t : TypeId)
deriving DecidableEq, Repr

/-- `wit_parser::Function`: `item_name` models `Function::item_name()` (the
function's local name, per the spec's data model); `results` models the
ordered result types (`results.len()` / `results.iter_types()`). -/
structure Func where
  item_name : String
  kind : FunctionKind
  results : List Ty
deriving DecidableEq, Repr

/-- `wit_parser::Interface`: optional name, optional owning package, and the
ordered function table (an `IndexMap<String, Function>` in Rust). -/
structure Interface where
  name : Option String
  package : Option PackageId
  functions : List (String × Func)
deriving DecidableEq, Repr

/-- `wit_parser::Resolve`: the id-indexed type graph. -/
structure Resolve where
  types : List TypeDef
  interfaces : List Interface
  packages : List Package
  worlds : List World
deriving DecidableEq, Repr

/-- Rust arena indexing `arena[id]`: panics (modelled as `Except.error`) when
the id is out of bounds. -/
def arenaGet (l : List α) (i : Nat) : Except String α :=
  match l.get? i with
  | some x => Except.ok x
  | Option.none => Except.error "arena index out of bounds"

/-- `ElementConfig`: the closed tagged union of per-element configuration,
one arm per element category, each carrying its boolean flags. -/
inductive ElementConfig where
  | none
  | record (as_class : Bool)
  | resource (as_iterator : Bool) (use_guest_class : Bool)
  | enum (as_typescript_enum : Bool)
  | variant (as_direct_union_of_resource_classes : Bool)
  | listOfTuple (as_dictionary : Bool)
deriving DecidableEq, Repr

/-- `ElementConfig::enum_as_typescript_enum`. -/
def ElementConfig.enum_as_typescript_enum : ElementConfig → Bool
  | ElementConfig.enum as_typescript_enum => as_typescript_enum
  | _ => false

/-- `ElementConfig::record_as_class`. -/
def ElementConfig.record_as_class : ElementConfig → Bool
  | ElementConfig.record as_class => as_class
  | _ => false

/-- `ElementConfig::resource_as_iterator`. -/
def ElementConfig.resource_as_iterator : ElementConfig → Bool
  | ElementConfig.resource as_iterator _ => as_iterator
  | _ => false

/-- `ElementConfig::resource_use_guest_class`. -/
def ElementConfig.resource_use_guest_class : ElementConfig → Bool
  | ElementConfig.resource _ use_guest_class => use_guest_class
  | _ => false

/-- `ElementConfig::variant_as_direct_union_of_resource_classes`. -/
def ElementConfig.variant_as_direct_union_of_resource_classes : ElementConfig → Bool
  | ElementConfig.variant as_union_of_classes => as_union_of_classes
  | _ => false

/-- `ElementConfig::list_of_tuple_as_dictionary`. -/
def ElementConfig.list_of_tuple_as_dictionary : ElementConfig → Bool
  | ElementConfig.listOfTuple as_dictionary => as_dictionary
  | _ => false

/-- Helper for the path resolver: `if let Some(name) = ... { path.push(name) }`. -/
def pushIfNamed : Option String → List String
  | some n => [n]
  | Option.none => []

/-- `<&TypeId as ConfigurableElement>::configuration_name`: build the segment
list from the type's owner and its own name, joined with `":"`. -/
def typeConfigurationName (resolve : Resolve) (i : TypeId) : Except String String :=
  match arenaGet resolve.types i with
  | Except.error e => Except.error e
  | Except.ok type_ =>
    match
      (match type_.owner with
       | TypeOwner.world world_id =>
         match arenaGet resolve.worlds world_id with
         | Except.error e => Except.error e
         | Except.ok w => Except.ok [w.name]
       | TypeOwner.interface interface_id =>
         match arenaGet resolve.interfaces interface_id with
         | Except.error e => Except.error e
         | Except.ok interface =>
           match interface.package with
           | some package_id =>
             match arenaGet resolve.packages package_id with
             | Except.error e => Except.error e
             | Except.ok package =>
               Except.ok ([package.name.ns, package.name.name] ++ pushIfNamed interface.name)
           | Option.none => Except.ok (pushIfNamed interface.name)
       | TypeOwner.none => Except.ok []) with
    | Except.error e => Except.error e
    | Except.ok ownerPath =>
      Except.ok (String.intercalate ":" (ownerPath ++ pushIfNamed type_.name))

/-- `<&Function as ConfigurableElement>::configuration_name`. -/
def functionConfigurationName (resolve : Resolve) (f : Func) : Except String String :=
  match f.kind with
  | FunctionKind.freestanding => Except.ok f.item_name
  | FunctionKind.method type_id
  | FunctionKind.static type_id
  | FunctionKind.constructor type_id =>
    match typeConfigurationName resolve type_id with
    | Except.error e => Except.error e
    | Except.ok path => Except.ok (path ++ "." ++ f.item_name ++ "()")

/-- The two `ConfigurableElement` implementors, as a closed sum. -/
inductive Element where
  | type (i : TypeId)
  | function (f : Func)
deriving DecidableEq, Repr

/-- Dispatch of `ConfigurableElement::configuration_name` over the two
implementors. -/
def Element.configuration_name (resolve : Resolve) : Element → Except String String
  | Element.type i => typeConfigurationName resolve i
  | Element.function f => functionConfigurationName resolve f

/-- `Configuration`: the path-to-`ElementConfig` mapping (Rust `HashMap`,
modelled as an association list looked up by key). -/
structure Configuration where
  mappings : List (String × ElementConfig)
deriving DecidableEq, Repr

/-- `Configuration::get`: compute the element's path, look it up, default to
the `None` arm when absent. -/
def Configuration.get (c : Configuration) (resolve : Resolve) (e : Element) :
    Except String ElementConfig :=
  match e.configuration_name resolve with
  | Except.error err => Except.error err
  | Except.ok path => Except.ok (Option.getD (c.mappings.lookup path) ElementConfig.none)

/-- `Configuration::get_member`: look up `path(element) ++ "." ++ name`,
defaulting to the `None` arm when absent. -/
def Configuration.get_member (c : Configuration) (resolve : Resolve) (e : Element)
    (name : String) : Except String ElementConfig :=
  match e.configuration_name resolve with
  | Except.error err => Except.error err
  | Except.ok path =>
    Except.ok (Option.getD (c.mappings.lookup (path ++ "." ++ name)) ElementConfig.none)

/-- `PrivateTypeExtensions::type_id`: the arena id when the type is `Type::Id`. -/
def Ty.type_id : Ty → Option TypeId
  | Ty.id i => some i
  | _ => Option.none

/-- `PrivateTypeExtensions::type_def`: `self.type_id().map(|id| &resolve.types[id])`;
the arena index panics (error) on a dangling id. -/
def Ty.type_def (t : Ty) (resolve : Resolve) : Except String (Option TypeDef) :=
  match t.type_id with
  | Option.none => Except.ok Option.none
  | some i =>
    match arenaGet resolve.types i with
    | Except.error e => Except.error e
    | Except.ok td => Except.ok (some td)

/-- `PrivateTypeExtensions::list_element_type`. -/
def Ty.list_element_type (t : Ty) (resolve : Resolve) : Except String (Option Ty) :=
  match t.type_def resolve with
  | Except.error e => Except.error e
  | Except.ok td? =>
    Except.ok (td?.bind fun type_def =>
      match type_def.kind with
      | TypeDefKind.list ty => some ty
      | _ => Option.none)

/-- `PrivateTypeExtensions::option_payload_type`. -/
def Ty.option_payload_type (t : Ty) (resolve : Resolve) : Except String (Option Ty) :=
  match t.type_def resolve with
  | Except.error e => Except.error e
  | Except.ok td? =>
    Except.ok (td?.bind fun type_def =>
      match type_def.kind with
      | TypeDefKind.option ty => some ty
      | _ => Option.none)

/-- `PrivateTypeExtensions::tuple_types`. -/
def Ty.tuple_types (t : Ty) (resolve : Resolve) : Except String (Option (List Ty)) :=
  match t.type_def resolve with
  | Except.error e => Except.error e
  | Except.ok td? =>
    Except.ok (td?.bind fun type_def =>
      match type_def.kind with
      | TypeDefKind.tuple types => some types
      | _ => Option.none)

/-- `PrivateTypeExtensions::variant_cases`. -/
def Ty.variant_cases (t : Ty) (resolve : Resolve) : Except String (Option (List Case)) :=
  match t.type_def resolve with
  | Except.error e => Except.error e
  | Except.ok td? =>
    Except.ok (td?.bind fun type_def =>
      match type_def.kind with
      | TypeDefKind.variant variant => some variant
      | _ => Option.none)

/-- `PrivateTypeExtensions::methods_of_resource`: when the type's owner is an
interface, every function of that interface whose kind is `Method` bound to
this type id, in table order; otherwise no function table. -/
def Ty.methods_of_resource (t : Ty) (resolve : Resolve) :
    Except String (Option (List Func)) :=
  match t.type_id with
  | Option.none => Except.ok Option.none
  | some type_id =>
    match arenaGet resolve.types type_id with
    | Except.error e => Except.error e
    | Except.ok type_def =>
      match type_def.owner with
      | TypeOwner.interface interface_id =>
        match arenaGet resolve.interfaces interface_id with
        | Except.error e => Except.error e
        | Except.ok interface =>
          Except.ok (some (interface.functions.filterMap fun p =>
            if FunctionKind.method type_id = p.2.kind then some p.2 else Option.none))
      | _ => Except.ok Option.none

/-- `TypeExtensions::value_type_of_list_of_tuple_interpretable_as_dictionary`:
`Some(second)` iff the type is a list of a two-component tuple whose first
component is the primitive string type. -/
def Ty.value_type_of_list_of_tuple_interpretable_as_dictionary (t : Ty)
    (resolve : Resolve) : Except String (Option Ty) :=
  match t.list_element_type resolve with
  | Except.error e => Except.error e
  | Except.ok Option.none => Except.ok Option.none
  | Except.ok (some ty) =>
    match ty.tuple_types resolve with
    | Except.error e => Except.error e
    | Except.ok Option.none => Except.ok Option.none
    | Except.ok (some tuple_types) =>
      match tuple_types with
      | [t0, t1] => Except.ok (if t0 = Ty.string then some t1 else Option.none)
      | _ => Except.ok Option.none

/-- `TypeExtensions::payload_type_of_option_result_of_next_method_of_resource`:
the first method (kind `Method` bound to this resource) named `"next"`,
qualifying iff it has exactly one result that resolves to `Option<T>`. -/
def Ty.payload_type_of_option_result_of_next_method_of_resource (t : Ty)
    (resolve : Resolve) : Except String (Option Ty) :=
  match t.methods_of_resource resolve with
  | Except.error e => Except.error e
  | Except.ok Option.none => Except.ok Option.none
  | Except.ok (some methods) =>
    match methods.find? (fun method => method.item_name = "next") with
    | Option.none => Except.ok Option.none
    | some method =>
      if method.results.length = 1 then
        match method.results.head? with
        | some ty => ty.option_payload_type resolve
        | Option.none => Except.ok Option.none
      else Except.ok Option.none

/-- The `filter_map` body of
`variant_case_type_defs_where_they_are_all_handles`, sequenced through the
panic monad: a case contributes the type def wrapped by its payload's owned
handle; other cases contribute nothing. -/
def collectHandleDefs (resolve : Resolve) : List Case → Except String (List TypeDef)
  | [] => Except.ok []
  | case :: rest =>
    match
      (match case.ty with
       | Option.none => Except.ok (Option.none : Option TypeDef)
       | some ty =>
         match ty.type_def resolve with
         | Except.error e => Except.error e
         | Except.ok Option.none => Except.ok Option.none
         | Except.ok (some type_def) =>
           match type_def.kind with
           | TypeDefKind.handle (Handle.own type_id) =>
             (Ty.id type_id).type_def resolve
           | _ => Except.ok Option.none) with
    | Except.error e => Except.error e
    | Except.ok hd? =>
      match collectHandleDefs resolve rest with
      | Except.error e => Except.error e
      | Except.ok tl =>
        Except.ok (match hd? with
          | some d => d :: tl
          | Option.none => tl)

/-- `TypeExtensions::variant_case_type_defs_where_they_are_all_handles`. -/
def Ty.variant_case_type_defs_where_they_are_all_handles (t : Ty)
    (resolve : Resolve) : Except String (Option (List TypeDef)) :=
  match t.variant_cases resolve with
  | Except.error e => Except.error e
  | Except.ok Option.none => Except.ok Option.none
  | Except.ok (some cases) =>
    match collectHandleDefs resolve cases with
    | Except.error e => Except.error e
    | Except.ok defs => Except.ok (some defs)

/-- A `Type` is valid in a graph when, if it is `Type::Id`, the id is in
bounds of the type arena. -/
def Ty.validIn (resolve : Resolve) : Ty → Bool
  | Ty.id i => decide (i < resolve.types.length)
  | _ => true

/-- Every type id mentioned by a `TypeDefKind` is in bounds. -/
def TypeDefKind.validIn (resolve : Resolve) : TypeDefKind → Bool
  | TypeDefKind.list t => t.validIn resolve
  | TypeDefKind.option t => t.validIn resolve
  | TypeDefKind.typeAlias t => t.validIn resolve
  | TypeDefKind.tuple types => types.all (Ty.validIn resolve)
  | TypeDefKind.variant cases =>
    cases.all fun case =>
      match case.ty with
      | some t => t.validIn resolve
      | Option.none => true
  | TypeDefKind.handle (Handle.own i) => decide (i < resolve.types.length)
  | TypeDefKind.handle (Handle.borrow i) => decide (i < resolve.types.length)
  | _ => true

/-- Every world / interface id mentioned by a `TypeOwner` is in bounds. -/
def TypeOwner.validIn (resolve : Resolve) : TypeOwner → Bool
  | TypeOwner.world w => decide (w < resolve.worlds.length)
  | TypeOwner.interface i => decide (i < resolve.interfaces.length)
  | TypeOwner.none => true

/-- Every id mentioned by a `Function` (its bound type, its result types) is
in bounds. -/
def Func.validIn (resolve : Resolve) (f : Func) : Bool :=
  (match f.kind with
   | FunctionKind.freestanding => true
   | FunctionKind.method i => decide (i < resolve.types.length)
   | FunctionKind.static i => decide (i < resolve.types.length)
   | FunctionKind.constructor i => decide (i < resolve.types.length))
  && f.results.all (Ty.validIn resolve)

/-- Every id mentioned by an `Interface` (its package, its functions) is in
bounds. -/
def Interface.validIn (resolve : Resolve) (interface : Interface) : Bool :=
  (match interface.package with
   | some p => decide (p < resolve.packages.length)
   | Option.none => true)
  && interface.functions.all fun p => p.2.validIn resolve

/-- Graph well-formedness: every id stored anywhere in the graph's arenas is
in bounds of the arena it indexes. -/
def Resolve.WF (resolve : Resolve) : Bool :=
  resolve.types.all (fun td => td.owner.validIn resolve && td.kind.validIn resolve)
  && resolve.interfaces.all (Interface.validIn resolve)

/-- An element is valid in a graph when every type id it mentions is in
bounds. -/
def Element.validIn (resolve : Resolve) : Element → Bool
  | Element.type i => decide (i < resolve.types.length)
  | Element.function f => f.validIn resolve

/-- The graph relation "type `t` resolves to `List<e>`". -/
def resolvesToList (resolve : Resolve) (t e : Ty) : Prop :=
  ∃ i td, t = Ty.id i ∧ resolve.types.get? i = some td ∧ td.kind = TypeDefKind.list e

/-- The graph relation "type `t` resolves to a `Tuple` with component list
`types`". -/
def resolvesToTuple (resolve : Resolve) (t : Ty) (types : List Ty) : Prop :=
  ∃ i td, t = Ty.id i ∧ resolve.types.get? i = some td ∧ td.kind = TypeDefKind.tuple types

/-- The graph relation "type `t` resolves to `Option<p>`". -/
def resolvesToOption (resolve : Resolve) (t p : Ty) : Prop :=
  ∃ i td, t = Ty.id i ∧ resolve.types.get? i = some td ∧ td.kind = TypeDefKind.option p

/-- The graph relation "type `t` resolves to a `Variant` with case list
`cases`". -/
def resolvesToVariant (resolve : Resolve) (t : Ty) (cases : List Case) : Prop :=
  ∃ i td, t = Ty.id i ∧ resolve.types.get? i = some td
    ∧ td.kind = TypeDefKind.variant cases

/-- Arm discriminator: is the value the `Enum` arm? -/
def ElementConfig.isEnumArm : ElementConfig → Bool
  | ElementConfig.enum _ => true
  | _ => false

/-- Arm discriminator: is the value the `Record` arm? -/
def ElementConfig.isRecordArm : ElementConfig → Bool
  | ElementConfig.record _ => true
  | _ => false

/-- Arm discriminator: is the value the `Resource` arm? -/
def ElementConfig.isResourceArm : ElementConfig → Bool
  | ElementConfig.resource _ _ => true
  | _ => false

/-- Arm discriminator: is the value the `Variant` arm? -/
def ElementConfig.isVariantArm : ElementConfig → Bool
  | ElementConfig.variant _ => true
  | _ => false

/-- Arm discriminator: is the value the `ListOfTuple` arm? -/
def ElementConfig.isListOfTupleArm : ElementConfig → Bool
  | ElementConfig.listOfTuple _ => true
  | _ => false

/-- Pure characterization of the `filter_map` in
`variant_case_type_defs_where_they_are_all_handles` on a well-formed graph: a
case contributes the type def referenced by its payload's owned handle (no
inspection of that def's kind); all other cases are dropped. -/
def collectedOwnedHandleDefs (resolve : Resolve) (cases : List Case) : List TypeDef :=
  cases.filterMap fun case =>
    case.ty.bind fun ty =>
      ty.type_id.bind fun i =>
        (resolve.types.get? i).bind fun td =>
          match td.kind with
          | TypeDefKind.handle (Handle.own j) => resolve.types.get? j
          | _ => Option.none

/-- Example graph: type 0 is `List<Tuple<string, u32>>` (via type 1); types
3/4 are lists whose elements fail the dictionary shape. -/
def exDictResolve : Resolve :=
  ⟨[⟨some "d", TypeDefKind.list (Ty.id 1), TypeOwner.none⟩,
    ⟨Option.none, TypeDefKind.tuple [Ty.string, Ty.u32], TypeOwner.none⟩,
    ⟨Option.none, TypeDefKind.tuple [Ty.u32, Ty.u32], TypeOwner.none⟩,
    ⟨some "l2", TypeDefKind.list (Ty.id 2), TypeOwner.none⟩,
    ⟨some "l3", TypeDefKind.list Ty.u32, TypeOwner.none⟩],
   [], [], []⟩

/-- Example graph: resource `widget` owned by interface `iface` of package
`ns:pkg`, with a method `next() -> option<u32>` and a static function. -/
def exIterResolve : Resolve :=
  ⟨[⟨some "widget", TypeDefKind.resource, TypeOwner.interface 0⟩,
    ⟨Option.none, TypeDefKind.option Ty.u32, TypeOwner.none⟩],
   [⟨some "iface", some 0,
     [("next", ⟨"next", FunctionKind.method 0, [Ty.id 1]⟩),
      ("mk", ⟨"mk", FunctionKind.static 0, []⟩)]⟩],
   [⟨⟨"ns", "pkg"⟩⟩], [⟨"w"⟩]⟩

/-- Example graph: type 0 is a variant with one case whose payload is an
owned handle (type 1) wrapping type 2, a `Record` — not a `Resource`. -/
def exVariantOwnRecord : Resolve :=
  ⟨[⟨some "v", TypeDefKind.variant [⟨"a", some (Ty.id 1)⟩], TypeOwner.none⟩,
    ⟨Option.none, TypeDefKind.handle (Handle.own 2), TypeOwner.none⟩,
    ⟨some "rec", TypeDefKind.record, TypeOwner.none⟩],
   [], [], []⟩

/-- Example graph: resource owned by a world (not an interface), and a
freestanding `next() -> option<u32>` function elsewhere. -/
def exWorldOwnedResource : Resolve :=
  ⟨[⟨some "widget", TypeDefKind.resource, TypeOwner.world 0⟩,
    ⟨Option.none, TypeDefKind.option Ty.u32, TypeOwner.none⟩],
   [⟨some "iface", Option.none, [("next", ⟨"next", FunctionKind.method 0, [Ty.id 1]⟩)]⟩],
   [], [⟨"w"⟩]⟩

theorem arenaGet_eq_ok {α : Type} (l : List α) (i : Nat) (x : α)
    (h : l.get? i = some x) : arenaGet l i = Except.ok x := by
  unfold arenaGet
  rw [h]

theorem arenaGet_total {α : Type} (l : List α) (i : Nat) (h : i < l.length) :
    ∃ x, arenaGet l i = Except.ok x ∧ l.get? i = some x := by
  cases hg : l.get? i with
  | none =>
    exact absurd (List.get?_eq_none.mp hg) (Nat.not_le_of_lt h)
  | some x =>
    exact ⟨x, arenaGet_eq_ok l i x hg, rfl⟩

theorem WF_typeDef_valid (resolve : Resolve) (hWF : resolve.WF = true)
    (i : Nat) (td : TypeDef) (h : resolve.types.get? i = some td) :
    td.owner.validIn resolve = true ∧ td.kind.validIn resolve = true := by
  have hmem : td ∈ resolve.types := List.get?_mem h
  unfold Resolve.WF at hWF
  rw [Bool.and_eq_true, List.all_eq_true, List.all_eq_true] at hWF
  have := hWF.1 td hmem
  rw [Bool.and_eq_true] at this
  exact this

theorem WF_interface_valid (resolve : Resolve) (hWF : resolve.WF = true)
    (i : Nat) (intf : Interface) (h : resolve.interfaces.get? i = some intf) :
    intf.validIn resolve = true := by
  have hmem : intf ∈ resolve.interfaces := List.get?_mem h
  unfold Resolve.WF at hWF
  rw [Bool.and_eq_true, List.all_eq_true, List.all_eq_true] at hWF
  exact hWF.2 intf hmem


/-- C2: for every `ElementConfig` value and each of the six flag accessors
(`enum_as_typescript_enum`, `record_as_class`, `resource_as_iterator`,
`resource_use_guest_class`, `variant_as_direct_union_of_resource_classes`,
`list_of_tuple_as_dictionary`): applied to a value of a non-matching arm
(including the `None` arm) the accessor returns `false`, and applied to the
matching arm it returns exactly the stored boolean flag. -/
theorem elementConfig_accessor_kind_safety (v : ElementConfig) :
    (v.isEnumArm = false → v.enum_as_typescript_enum = false)
  ∧ (∀ b, (ElementConfig.enum b).enum_as_typescript_enum = b)
  ∧ (v.isRecordArm = false → v.record_as_class = false)
  ∧ (∀ b, (ElementConfig.record b).record_as_class = b)
  ∧ (v.isResourceArm = false → v.resource_as_iterator = false)
  ∧ (∀ a g, (ElementConfig.resource a g).resource_as_iterator = a)
  ∧ (v.isResourceArm = false → v.resource_use_guest_class = false)
  ∧ (∀ a g, (ElementConfig.resource a g).resource_use_guest_class = g)
  ∧ (v.isVariantArm = false → v.variant_as_direct_union_of_resource_classes = false)
  ∧ (∀ b, (ElementConfig.variant b).variant_as_direct_union_of_resource_classes = b)
  ∧ (v.isListOfTupleArm = false → v.list_of_tuple_as_dictionary = false)
  ∧ (∀ b, (ElementConfig.listOfTuple b).list_of_tuple_as_dictionary = b) := by
  cases v <;>
    simp [ElementConfig.isEnumArm, ElementConfig.isRecordArm, ElementConfig.isResourceArm,
      ElementConfig.isVariantArm, ElementConfig.isListOfTupleArm,
      ElementConfig.enum_as_typescript_enum, ElementConfig.record_as_class,
      ElementConfig.resource_as_iterator, ElementConfig.resource_use_guest_class,
      ElementConfig.variant_as_direct_union_of_resource_classes,
      ElementConfig.list_of_tuple_as_dictionary]

/-- Witness for C2: `record_as_class` on a `Resource` value is `false`. -/
theorem elementConfig_accessor_kind_safety_witness :
    (ElementConfig.resource true true).record_as_class = false :=
  (elementConfig_accessor_kind_safety (ElementConfig.resource true true)).2.2.1 (by decide)

/-- C1: when an element's computed path is not a key of the configuration
mapping, `Configuration::get` returns the `None` arm; when
`path ++ "." ++ m` is not a key, `Configuration::get_member` returns the
`None` arm; and a configuration that maps the path to the `None` arm
explicitly is observationally identical to one where the key is absent. -/
theorem configuration_get_absent_is_none_arm (c : Configuration) (resolve : Resolve)
    (e : Element) (path : String)
    (hpath : e.configuration_name resolve = Except.ok path)
    (habsent : c.mappings.lookup path = Option.none) :
    c.get resolve e = Except.ok ElementConfig.none
  ∧ (∀ m, c.mappings.lookup (path ++ "." ++ m) = Option.none →
      c.get_member resolve e m = Except.ok ElementConfig.none)
  ∧ (∀ c' : Configuration, c'.mappings.lookup path = some ElementConfig.none →
      c'.get resolve e = c.get resolve e) := by
  refine ⟨?_, ?_, ?_⟩
  · simp [Configuration.get, hpath, habsent]
  · intro m hm
    simp [Configuration.get_member, hpath, hm]
  · intro c' hc'
    simp [Configuration.get, hpath, habsent, hc']

/-- Witness for C1: an empty configuration on a freestanding function. -/
theorem configuration_get_absent_is_none_arm_witness :
    Configuration.get ⟨[]⟩ ⟨[], [], [], []⟩
      (Element.function ⟨"f", FunctionKind.freestanding, []⟩)
      = Except.ok ElementConfig.none :=
  (configuration_get_absent_is_none_arm ⟨[]⟩ ⟨[], [], [], []⟩
    (Element.function ⟨"f", FunctionKind.freestanding, []⟩) "f" rfl rfl).1

/-- C3: the path of a type joins with `":"` the segments pushed from its
owner — a world's name for a `World` owner; the package namespace and package
name exactly when the owning interface has a package, then the interface's
name exactly when it is named, for an `Interface` owner; nothing for owner
`None` — followed by the type's own name exactly when the type is named. -/
theorem type_configuration_name_segments (resolve : Resolve) (i : TypeId) (td : TypeDef)
    (h : resolve.types.get? i = some td) :
    (∀ wid w, td.owner = TypeOwner.world wid → resolve.worlds.get? wid = some w →
      typeConfigurationName resolve i
        = Except.ok (String.intercalate ":" ([w.name] ++ pushIfNamed td.name)))
  ∧ (∀ iid intf, td.owner = TypeOwner.interface iid →
      resolve.interfaces.get? iid = some intf →
      ((intf.package = Option.none →
         typeConfigurationName resolve i
           = Except.ok (String.intercalate ":"
               (pushIfNamed intf.name ++ pushIfNamed td.name)))
       ∧ (∀ pid pkg, intf.package = some pid → resolve.packages.get? pid = some pkg →
           typeConfigurationName resolve i
             = Except.ok (String.intercalate ":"
                 ([pkg.name.ns, pkg.name.name] ++ pushIfNamed intf.name
                   ++ pushIfNamed td.name)))))
  ∧ (td.owner = TypeOwner.none →
      typeConfigurationName resolve i
        = Except.ok (String.intercalate ":" (pushIfNamed td.name))) := by
  have harena := arenaGet_eq_ok resolve.types i td h
  refine ⟨?_, ?_, ?_⟩
  · intro wid w hown hw
    simp [typeConfigurationName, harena, hown, arenaGet_eq_ok resolve.worlds wid w hw]
  · intro iid intf hown hintf
    refine ⟨?_, ?_⟩
    · intro hpkg
      simp [typeConfigurationName, harena, hown,
        arenaGet_eq_ok resolve.interfaces iid intf hintf, hpkg]
    · intro pid pkg hpid hpkg
      simp [typeConfigurationName, harena, hown,
        arenaGet_eq_ok resolve.interfaces iid intf hintf, hpid,
        arenaGet_eq_ok resolve.packages pid pkg hpkg]
  · intro hown
    simp [typeConfigurationName, harena, hown]

/-- Witness for C3: the package-owned interface case yields
`ns:pkg:iface:widget`. -/
theorem type_configuration_name_segments_witness :
    typeConfigurationName exIterResolve 0 = Except.ok "ns:pkg:iface:widget" := by
  have h := ((type_configuration_name_segments exIterResolve 0
      ⟨some "widget", TypeDefKind.resource, TypeOwner.interface 0⟩ rfl).2.1
      0 ⟨some "iface", some 0,
        [("next", ⟨"next", FunctionKind.method 0, [Ty.id 1]⟩),
         ("mk", ⟨"mk", FunctionKind.static 0, []⟩)]⟩ rfl rfl).2
      0 ⟨⟨"ns", "pkg"⟩⟩ rfl rfl
  exact h

/-- C4: a freestanding function's path is exactly its local name; a function
bound to a type (`Method`/`Static`/`Constructor`) has path
`<bound type's path> ++ "." ++ <local name> ++ "()"`. -/
theorem function_configuration_name_spec (resolve : Resolve) (f : Func) :
    (f.kind = FunctionKind.freestanding →
      functionConfigurationName resolve f = Except.ok f.item_name)
  ∧ (∀ tid p, typeConfigurationName resolve tid = Except.ok p →
      (f.kind = FunctionKind.method tid ∨ f.kind = FunctionKind.static tid
        ∨ f.kind = FunctionKind.constructor tid) →
      functionConfigurationName resolve f
        = Except.ok (p ++ "." ++ f.item_name ++ "()")) := by
  refine ⟨?_, ?_⟩
  · intro hk
    simp [functionConfigurationName, hk]
  · intro tid p hp hk
    rcases hk with hk | hk | hk <;> simp [functionConfigurationName, hk, hp]

/-- Witness for C4: a method named `get` bound to a type whose own path is
`ns:pkg:iface:widget` yields `ns:pkg:iface:widget.get()`. -/
theorem function_configuration_name_spec_witness :
    functionConfigurationName exIterResolve ⟨"get", FunctionKind.method 0, []⟩
      = Except.ok "ns:pkg:iface:widget.get()" := by
  have h := (function_configuration_name_spec exIterResolve
      ⟨"get", FunctionKind.method 0, []⟩).2 0 "ns:pkg:iface:widget" rfl (Or.inl rfl)
  exact h

theorem arenaGet_eq_error {α : Type} (l : List α) (i : Nat)
    (h : l.get? i = Option.none) :
    arenaGet l i = Except.error "arena index out of bounds" := by
  unfold arenaGet
  rw [h]

theorem type_def_ok_some_iff (resolve : Resolve) (t : Ty) (td : TypeDef) :
    t.type_def resolve = Except.ok (some td) ↔
      ∃ i, t = Ty.id i ∧ resolve.types.get? i = some td := by
  cases t <;> simp [Ty.type_def, Ty.type_id]
  rename_i i
  cases hg : resolve.types[i]? with
  | none => simp [arenaGet_eq_error _ _ ((List.get?_eq_getElem? _ _).trans hg), hg]
  | some td' => simp [arenaGet_eq_ok _ _ _ ((List.get?_eq_getElem? _ _).trans hg), hg]

theorem list_element_type_ok_some_iff (resolve : Resolve) (t e : Ty) :
    t.list_element_type resolve = Except.ok (some e) ↔ resolvesToList resolve t e := by
  unfold resolvesToList
  cases t <;> simp [Ty.list_element_type, Ty.type_def, Ty.type_id]
  rename_i i
  cases hg : resolve.types[i]? with
  | none => simp [arenaGet_eq_error _ _ ((List.get?_eq_getElem? _ _).trans hg), hg]
  | some td =>
    cases hk : td.kind <;>
      simp [arenaGet_eq_ok _ _ _ ((List.get?_eq_getElem? _ _).trans hg), hg, hk]

theorem tuple_types_ok_some_iff (resolve : Resolve) (t : Ty) (ts : List Ty) :
    t.tuple_types resolve = Except.ok (some ts) ↔ resolvesToTuple resolve t ts := by
  unfold resolvesToTuple
  cases t <;> simp [Ty.tuple_types, Ty.type_def, Ty.type_id]
  rename_i i
  cases hg : resolve.types[i]? with
  | none => simp [arenaGet_eq_error _ _ ((List.get?_eq_getElem? _ _).trans hg), hg]
  | some td =>
    cases hk : td.kind <;>
      simp [arenaGet_eq_ok _ _ _ ((List.get?_eq_getElem? _ _).trans hg), hg, hk]

theorem option_payload_type_ok_some_iff (resolve : Resolve) (t p : Ty) :
    t.option_payload_type resolve = Except.ok (some p) ↔ resolvesToOption resolve t p := by
  unfold resolvesToOption
  cases t <;> simp [Ty.option_payload_type, Ty.type_def, Ty.type_id]
  rename_i i
  cases hg : resolve.types[i]? with
  | none => simp [arenaGet_eq_error _ _ ((List.get?_eq_getElem? _ _).trans hg), hg]
  | some td =>
    cases hk : td.kind <;>
      simp [arenaGet_eq_ok _ _ _ ((List.get?_eq_getElem? _ _).trans hg), hg, hk]

theorem variant_cases_ok_some_iff (resolve : Resolve) (t : Ty) (cases_ : List Case) :
    t.variant_cases resolve = Except.ok (some cases_) ↔
      resolvesToVariant resolve t cases_ := by
  unfold resolvesToVariant
  cases t <;> simp [Ty.variant_cases, Ty.type_def, Ty.type_id]
  rename_i i
  cases hg : resolve.types[i]? with
  | none => simp [arenaGet_eq_error _ _ ((List.get?_eq_getElem? _ _).trans hg), hg]
  | some td =>
    cases hk : td.kind <;>
      simp [arenaGet_eq_ok _ _ _ ((List.get?_eq_getElem? _ _).trans hg), hg, hk]

theorem type_def_total (resolve : Resolve) (t : Ty) (hv : t.validIn resolve = true) :
    ∃ o, t.type_def resolve = Except.ok o := by
  cases t <;> try exact ⟨Option.none, rfl⟩
  rename_i i
  simp [Ty.validIn] at hv
  obtain ⟨td, harena, _⟩ := arenaGet_total resolve.types i hv
  exact ⟨some td, by simp [Ty.type_def, Ty.type_id, harena]⟩

theorem list_element_type_total (resolve : Resolve) (t : Ty)
    (hv : t.validIn resolve = true) :
    ∃ o, t.list_element_type resolve = Except.ok o := by
  obtain ⟨o, h⟩ := type_def_total resolve t hv
  exact ⟨o.bind fun type_def =>
      match type_def.kind with
      | TypeDefKind.list ty => some ty
      | _ => Option.none,
    by simp [Ty.list_element_type, h]⟩

theorem tuple_types_total (resolve : Resolve) (t : Ty)
    (hv : t.validIn resolve = true) :
    ∃ o, t.tuple_types resolve = Except.ok o := by
  obtain ⟨o, h⟩ := type_def_total resolve t hv
  exact ⟨o.bind fun type_def =>
      match type_def.kind with
      | TypeDefKind.tuple types => some types
      | _ => Option.none,
    by simp [Ty.tuple_types, h]⟩

theorem option_payload_type_total (resolve : Resolve) (t : Ty)
    (hv : t.validIn resolve = true) :
    ∃ o, t.option_payload_type resolve = Except.ok o := by
  obtain ⟨o, h⟩ := type_def_total resolve t hv
  exact ⟨o.bind fun type_def =>
      match type_def.kind with
      | TypeDefKind.option ty => some ty
      | _ => Option.none,
    by simp [Ty.option_payload_type, h]⟩

theorem variant_cases_total (resolve : Resolve) (t : Ty)
    (hv : t.validIn resolve = true) :
    ∃ o, t.variant_cases resolve = Except.ok o := by
  obtain ⟨o, h⟩ := type_def_total resolve t hv
  exact ⟨o.bind fun type_def =>
      match type_def.kind with
      | TypeDefKind.variant variant => some variant
      | _ => Option.none,
    by simp [Ty.variant_cases, h]⟩

theorem valid_of_list_kind (resolve : Resolve) (hWF : resolve.WF = true) {t e : Ty}
    (h : resolvesToList resolve t e) : e.validIn resolve = true := by
  obtain ⟨i, td, rfl, hget, hkind⟩ := h
  have hk := (WF_typeDef_valid resolve hWF i td hget).2
  rw [hkind] at hk
  simpa [TypeDefKind.validIn] using hk

theorem dictionary_classifier_total (resolve : Resolve) (hWF : resolve.WF = true)
    (t : Ty) (hv : t.validIn resolve = true) :
    ∃ o, t.value_type_of_list_of_tuple_interpretable_as_dictionary resolve
      = Except.ok o := by
  cases hle : t.list_element_type resolve with
  | error err =>
    obtain ⟨o, h⟩ := list_element_type_total resolve t hv
    rw [hle] at h
    exact absurd h (by simp)
  | ok e? =>
    cases e? with
    | none =>
      exact ⟨Option.none,
        by simp [Ty.value_type_of_list_of_tuple_interpretable_as_dictionary, hle]⟩
    | some e =>
      have he : e.validIn resolve = true :=
        valid_of_list_kind resolve hWF ((list_element_type_ok_some_iff resolve t e).mp hle)
      cases htt : e.tuple_types resolve with
      | error err =>
        obtain ⟨o, h⟩ := tuple_types_total resolve e he
        rw [htt] at h
        exact absurd h (by simp)
      | ok ts? =>
        cases ts? with
        | none =>
          exact ⟨Option.none,
            by simp [Ty.value_type_of_list_of_tuple_interpretable_as_dictionary, hle, htt]⟩
        | some ts =>
          rcases ts with _ | ⟨t0, _ | ⟨t1, _ | ⟨t2, r⟩⟩⟩
          · exact ⟨Option.none,
              by simp [Ty.value_type_of_list_of_tuple_interpretable_as_dictionary, hle, htt]⟩
          · exact ⟨Option.none,
              by simp [Ty.value_type_of_list_of_tuple_interpretable_as_dictionary, hle, htt]⟩
          · exact ⟨if t0 = Ty.string then some t1 else Option.none,
              by simp [Ty.value_type_of_list_of_tuple_interpretable_as_dictionary, hle, htt]⟩
          · exact ⟨Option.none,
              by simp [Ty.value_type_of_list_of_tuple_interpretable_as_dictionary, hle, htt]⟩

/-- C5: the dictionary classifier returns `Some v` iff the type resolves to
`List<e>` where `e` resolves to a `Tuple` of exactly two components whose
first is the primitive string type and whose second is `v`; on a well-formed
graph, in every other case it returns `None`. -/
theorem dictionary_classifier_spec (resolve : Resolve) (t : Ty) :
    (∀ v, t.value_type_of_list_of_tuple_interpretable_as_dictionary resolve
        = Except.ok (some v) ↔
      ∃ e, resolvesToList resolve t e ∧ resolvesToTuple resolve e [Ty.string, v])
  ∧ (resolve.WF = true → t.validIn resolve = true →
      (∀ v e, ¬(resolvesToList resolve t e ∧ resolvesToTuple resolve e [Ty.string, v])) →
      t.value_type_of_list_of_tuple_interpretable_as_dictionary resolve
        = Except.ok Option.none) := by
  have main : ∀ v, t.value_type_of_list_of_tuple_interpretable_as_dictionary resolve
        = Except.ok (some v) ↔
      ∃ e, resolvesToList resolve t e ∧ resolvesToTuple resolve e [Ty.string, v] := by
    intro v
    cases hle : t.list_element_type resolve with
    | error err =>
      have hres : t.value_type_of_list_of_tuple_interpretable_as_dictionary resolve
          = Except.error err := by
        simp [Ty.value_type_of_list_of_tuple_interpretable_as_dictionary, hle]
      rw [hres]
      constructor
      · intro h; exact absurd h (by simp)
      · rintro ⟨e, hl, ht⟩
        have := (list_element_type_ok_some_iff resolve t e).mpr hl
        rw [hle] at this
        exact absurd this (by simp)
    | ok e? =>
      cases e? with
      | none =>
        have hres : t.value_type_of_list_of_tuple_interpretable_as_dictionary resolve
            = Except.ok Option.none := by
          simp [Ty.value_type_of_list_of_tuple_interpretable_as_dictionary, hle]
        rw [hres]
        constructor
        · intro h; exact absurd h (by simp)
        · rintro ⟨e, hl, ht⟩
          have := (list_element_type_ok_some_iff resolve t e).mpr hl
          rw [hle] at this
          exact absurd this (by simp)
      | some e =>
        have pinE : ∀ e', resolvesToList resolve t e' → e' = e := by
          intro e' hl'
          have h' := (list_element_type_ok_some_iff resolve t e').mpr hl'
          rw [hle] at h'
          simpa using h'.symm
        cases htt : e.tuple_types resolve with
        | error err =>
          have hres : t.value_type_of_list_of_tuple_interpretable_as_dictionary resolve
              = Except.error err := by
            simp [Ty.value_type_of_list_of_tuple_interpretable_as_dictionary, hle, htt]
          rw [hres]
          constructor
          · intro h; exact absurd h (by simp)
          · rintro ⟨e', hl', ht'⟩
            rw [pinE e' hl'] at ht'
            have := (tuple_types_ok_some_iff resolve e [Ty.string, v]).mpr ht'
            rw [htt] at this
            exact absurd this (by simp)
        | ok ts? =>
          cases ts? with
          | none =>
            have hres : t.value_type_of_list_of_tuple_interpretable_as_dictionary resolve
                = Except.ok Option.none := by
              simp [Ty.value_type_of_list_of_tuple_interpretable_as_dictionary, hle, htt]
            rw [hres]
            constructor
            · intro h; exact absurd h (by simp)
            · rintro ⟨e', hl', ht'⟩
              rw [pinE e' hl'] at ht'
              have := (tuple_types_ok_some_iff resolve e [Ty.string, v]).mpr ht'
              rw [htt] at this
              exact absurd this (by simp)
          | some ts =>
            have pinTs : ∀ ts', resolvesToTuple resolve e ts' → ts' = ts := by
              intro ts' ht'
              have h' := (tuple_types_ok_some_iff resolve e ts').mpr ht'
              rw [htt] at h'
              simpa using h'.symm
            rcases ts with _ | ⟨t0, _ | ⟨t1, _ | ⟨t2, r⟩⟩⟩
            · have hres : t.value_type_of_list_of_tuple_interpretable_as_dictionary resolve
                  = Except.ok Option.none := by
                simp [Ty.value_type_of_list_of_tuple_interpretable_as_dictionary, hle, htt]
              rw [hres]
              constructor
              · intro h; exact absurd h (by simp)
              · rintro ⟨e', hl', ht'⟩
                rw [pinE e' hl'] at ht'
                exact absurd (pinTs _ ht') (by simp)
            · have hres : t.value_type_of_list_of_tuple_interpretable_as_dictionary resolve
                  = Except.ok Option.none := by
                simp [Ty.value_type_of_list_of_tuple_interpretable_as_dictionary, hle, htt]
              rw [hres]
              constructor
              · intro h; exact absurd h (by simp)
              · rintro ⟨e', hl', ht'⟩
                rw [pinE e' hl'] at ht'
                exact absurd (pinTs _ ht') (by simp)
            · have hres : t.value_type_of_list_of_tuple_interpretable_as_dictionary resolve
                  = Except.ok (if t0 = Ty.string then some t1 else Option.none) := by
                simp [Ty.value_type_of_list_of_tuple_interpretable_as_dictionary, hle, htt]
              rw [hres]
              by_cases ht0 : t0 = Ty.string
              · subst ht0
                simp only [if_pos rfl]
                constructor
                · intro h
                  have h1 : t1 = v := by simpa using h
                  subst h1
                  exact ⟨e, (list_element_type_ok_some_iff resolve t e).mp hle,
                    (tuple_types_ok_some_iff resolve e _).mp htt⟩
                · rintro ⟨e', hl', ht'⟩
                  rw [pinE e' hl'] at ht'
                  have := pinTs _ ht'
                  simp at this
                  simp [this]
              · simp only [if_neg ht0]
                constructor
                · intro h; exact absurd h (by simp)
                · rintro ⟨e', hl', ht'⟩
                  rw [pinE e' hl'] at ht'
                  have := pinTs _ ht'
                  simp at this
                  exact absurd this.1.symm ht0
            · have hres : t.value_type_of_list_of_tuple_interpretable_as_dictionary resolve
                  = Except.ok Option.none := by
                simp [Ty.value_type_of_list_of_tuple_interpretable_as_dictionary, hle, htt]
              rw [hres]
              constructor
              · intro h; exact absurd h (by simp)
              · rintro ⟨e', hl', ht'⟩
                rw [pinE e' hl'] at ht'
                exact absurd (pinTs _ ht') (by simp)
  refine ⟨main, ?_⟩
  intro hWF hv hnone
  obtain ⟨o, ho⟩ := dictionary_classifier_total resolve hWF t hv
  cases o with
  | none => exact ho
  | some v =>
    obtain ⟨e, he⟩ := (main v).mp ho
    exact absurd he (hnone v e)

/-- Witness for C5: `List<Tuple<string, u32>>` classifies as a dictionary
with value type `u32`. -/
theorem dictionary_classifier_spec_witness :
    (Ty.id 0).value_type_of_list_of_tuple_interpretable_as_dictionary exDictResolve
      = Except.ok (some Ty.u32) :=
  ((dictionary_classifier_spec exDictResolve (Ty.id 0)).1 Ty.u32).mpr
    ⟨Ty.id 1,
      ⟨0, ⟨some "d", TypeDefKind.list (Ty.id 1), TypeOwner.none⟩, rfl, rfl, rfl⟩,
      ⟨1, ⟨Option.none, TypeDefKind.tuple [Ty.string, Ty.u32], TypeOwner.none⟩, rfl, rfl, rfl⟩⟩

theorem filterMap_if_eq_filter_map (tid : TypeId) (l : List (String × Func)) :
    (l.filterMap fun p =>
      if FunctionKind.method tid = p.2.kind then some p.2 else Option.none)
      = (l.map Prod.snd).filter fun f => decide (f.kind = FunctionKind.method tid) := by
  induction l with
  | nil => rfl
  | cons hd tl ih =>
    rw [List.map_cons]
    by_cases h : FunctionKind.method tid = hd.2.kind
    · simp only [List.filterMap_cons, if_pos h]
      rw [List.filter_cons_of_pos (by simp [h.symm]), ih]
    · simp only [List.filterMap_cons, if_neg h]
      rw [List.filter_cons_of_neg (by simp; exact fun hh => h hh.symm), ih]

theorem methods_of_resource_eq (resolve : Resolve) (tid : TypeId) (td : TypeDef)
    (iid : InterfaceId) (intf : Interface)
    (htd : resolve.types.get? tid = some td)
    (hown : td.owner = TypeOwner.interface iid)
    (hintf : resolve.interfaces.get? iid = some intf) :
    (Ty.id tid).methods_of_resource resolve
      = Except.ok (some ((intf.functions.map Prod.snd).filter
          fun f => decide (f.kind = FunctionKind.method tid))) := by
  simp [Ty.methods_of_resource, Ty.type_id, arenaGet_eq_ok _ _ _ htd, hown,
    arenaGet_eq_ok _ _ _ hintf, filterMap_if_eq_filter_map]

theorem interface_member_valid (resolve : Resolve) (hWF : resolve.WF = true)
    (iid : InterfaceId) (intf : Interface)
    (hintf : resolve.interfaces.get? iid = some intf)
    (m : Func) (hm : m ∈ intf.functions.map Prod.snd) :
    m.validIn resolve = true := by
  obtain ⟨p, hp, hpe⟩ := List.mem_map.mp hm
  have hiv := WF_interface_valid resolve hWF iid intf hintf
  unfold Interface.validIn at hiv
  rw [Bool.and_eq_true, List.all_eq_true] at hiv
  rw [← hpe]
  exact hiv.2 p hp

theorem func_results_valid (resolve : Resolve) (m : Func)
    (h : m.validIn resolve = true) {ty : Ty} (hty : ty ∈ m.results) :
    ty.validIn resolve = true := by
  unfold Func.validIn at h
  rw [Bool.and_eq_true, List.all_eq_true] at h
  exact h.2 ty hty

/-- C6: the iterator classifier scans the owning interface's function table
restricted, in table order, to functions of kind `Method` bound to this type
(`Static`/`Constructor` excluded), takes the first whose local name is
exactly `"next"`, and returns `Some T` iff that method declares exactly one
result and that result resolves to `Option<T>`; it returns `None` when no
such method exists, when the result arity differs from one, or (on a
well-formed graph) when the result does not resolve to an option. -/
theorem iterator_classifier_spec (resolve : Resolve) (t : Ty) (tid : TypeId)
    (td : TypeDef) (iid : InterfaceId) (intf : Interface)
    (ht : t = Ty.id tid) (htd : resolve.types.get? tid = some td)
    (hown : td.owner = TypeOwner.interface iid)
    (hintf : resolve.interfaces.get? iid = some intf) :
    (∀ T, t.payload_type_of_option_result_of_next_method_of_resource resolve
        = Except.ok (some T) ↔
      ∃ m ty, ((intf.functions.map Prod.snd).filter
            (fun f => decide (f.kind = FunctionKind.method tid))).find?
            (fun f => decide (f.item_name = "next")) = some m
        ∧ m.results = [ty] ∧ resolvesToOption resolve ty T)
  ∧ (((intf.functions.map Prod.snd).filter
        (fun f => decide (f.kind = FunctionKind.method tid))).find?
        (fun f => decide (f.item_name = "next")) = Option.none →
      t.payload_type_of_option_result_of_next_method_of_resource resolve
        = Except.ok Option.none)
  ∧ (∀ m, ((intf.functions.map Prod.snd).filter
        (fun f => decide (f.kind = FunctionKind.method tid))).find?
        (fun f => decide (f.item_name = "next")) = some m →
      m.results.length ≠ 1 →
      t.payload_type_of_option_result_of_next_method_of_resource resolve
        = Except.ok Option.none)
  ∧ (∀ m ty, resolve.WF = true →
      ((intf.functions.map Prod.snd).filter
        (fun f => decide (f.kind = FunctionKind.method tid))).find?
        (fun f => decide (f.item_name = "next")) = some m →
      m.results = [ty] → (∀ T, ¬ resolvesToOption resolve ty T) →
      t.payload_type_of_option_result_of_next_method_of_resource resolve
        = Except.ok Option.none) := by
  subst ht
  have hmeq := methods_of_resource_eq resolve tid td iid intf htd hown hintf
  refine ⟨?_, ?_, ?_, ?_⟩
  · intro T
    cases hf : ((intf.functions.map Prod.snd).filter
        (fun f => decide (f.kind = FunctionKind.method tid))).find?
        (fun f => decide (f.item_name = "next")) with
    | none =>
      have hres : (Ty.id tid).payload_type_of_option_result_of_next_method_of_resource
          resolve = Except.ok Option.none := by
        simp [Ty.payload_type_of_option_result_of_next_method_of_resource, hmeq, hf]
      rw [hres]
      constructor
      · intro h; exact absurd h (by simp)
      · rintro ⟨m, ty, hfm, _, _⟩
        exact absurd hfm (by simp)
    | some m =>
      by_cases hlen : m.results.length = 1
      · obtain ⟨ty, hres1⟩ := List.length_eq_one.mp hlen
        have hres : (Ty.id tid).payload_type_of_option_result_of_next_method_of_resource
            resolve = ty.option_payload_type resolve := by
          simp [Ty.payload_type_of_option_result_of_next_method_of_resource, hmeq, hf,
            hres1]
        rw [hres]
        constructor
        · intro h
          exact ⟨m, ty, rfl, hres1, (option_payload_type_ok_some_iff resolve ty T).mp h⟩
        · rintro ⟨m', ty', hfm, hres', hopt⟩
          have hm' : m' = m := by simpa using hfm.symm
          subst hm'
          rw [hres1] at hres'
          have hty : ty = ty' := by simpa using hres'
          rw [hty]
          exact (option_payload_type_ok_some_iff resolve ty' T).mpr hopt
      · have hres : (Ty.id tid).payload_type_of_option_result_of_next_method_of_resource
            resolve = Except.ok Option.none := by
          simp [Ty.payload_type_of_option_result_of_next_method_of_resource, hmeq, hf,
            hlen]
        rw [hres]
        constructor
        · intro h; exact absurd h (by simp)
        · rintro ⟨m', ty', hfm, hres', hopt⟩
          have hm' : m' = m := by simpa using hfm.symm
          subst hm'
          rw [hres'] at hlen
          simp at hlen
  · intro hf
    simp [Ty.payload_type_of_option_result_of_next_method_of_resource, hmeq, hf]
  · intro m hf hlen
    simp [Ty.payload_type_of_option_result_of_next_method_of_resource, hmeq, hf, hlen]
  · intro m ty hWF hf hres1 hnopt
    have hmem : m ∈ (intf.functions.map Prod.snd).filter
        (fun f => decide (f.kind = FunctionKind.method tid)) :=
      List.mem_of_find?_eq_some hf
    have hmem2 : m ∈ intf.functions.map Prod.snd := (List.mem_filter.mp hmem).1
    have hmv := interface_member_valid resolve hWF iid intf hintf m hmem2
    have htyv : ty.validIn resolve = true :=
      func_results_valid resolve m hmv (by rw [hres1]; exact List.mem_singleton_self ty)
    obtain ⟨o, hop⟩ := option_payload_type_total resolve ty htyv
    cases o with
    | none =>
      simp [Ty.payload_type_of_option_result_of_next_method_of_resource, hmeq, hf, hres1,
        hop]
    | some T =>
      exact absurd ((option_payload_type_ok_some_iff resolve ty T).mp hop) (hnopt T)

/-- Witness for C6: a resource with `next() -> option<u32>` classifies as an
iterator with payload type `u32`. -/
theorem iterator_classifier_spec_witness :
    (Ty.id 0).payload_type_of_option_result_of_next_method_of_resource exIterResolve
      = Except.ok (some Ty.u32) :=
  ((iterator_classifier_spec exIterResolve (Ty.id 0) 0
      ⟨some "widget", TypeDefKind.resource, TypeOwner.interface 0⟩ 0
      ⟨some "iface", some 0,
        [("next", ⟨"next", FunctionKind.method 0, [Ty.id 1]⟩),
         ("mk", ⟨"mk", FunctionKind.static 0, []⟩)]⟩
      rfl rfl rfl rfl).1 Ty.u32).mpr
    ⟨⟨"next", FunctionKind.method 0, [Ty.id 1]⟩, Ty.id 1, by decide, rfl,
      ⟨1, ⟨Option.none, TypeDefKind.option Ty.u32, TypeOwner.none⟩, rfl, rfl, rfl⟩⟩

/-- C10: when a type's owner is not an interface (owner world or owner none),
resource-method discovery yields no function table and the iterator
classifier returns `None`, regardless of any functions in the graph. -/
theorem iterator_classifier_requires_interface_owner (resolve : Resolve) (t : Ty)
    (tid : TypeId) (td : TypeDef)
    (ht : t = Ty.id tid) (htd : resolve.types.get? tid = some td)
    (hown : ∀ iid, td.owner ≠ TypeOwner.interface iid) :
    t.methods_of_resource resolve = Except.ok Option.none
  ∧ t.payload_type_of_option_result_of_next_method_of_resource resolve
      = Except.ok Option.none := by
  subst ht
  have hm : (Ty.id tid).methods_of_resource resolve = Except.ok Option.none := by
    cases how : td.owner with
    | interface iid => exact absurd how (hown iid)
    | world w =>
      simp [Ty.methods_of_resource, Ty.type_id, arenaGet_eq_ok _ _ _ htd, how]
    | none =>
      simp [Ty.methods_of_resource, Ty.type_id, arenaGet_eq_ok _ _ _ htd, how]
  exact ⟨hm, by
    simp [Ty.payload_type_of_option_result_of_next_method_of_resource, hm]⟩

/-- Witness for C10: a resource owned by a world, even with a `next` method
recorded in an unrelated interface, is not classified as an iterator. -/
theorem iterator_classifier_requires_interface_owner_witness :
    (Ty.id 0).payload_type_of_option_result_of_next_method_of_resource
        exWorldOwnedResource = Except.ok Option.none :=
  (iterator_classifier_requires_interface_owner exWorldOwnedResource (Ty.id 0) 0
    ⟨some "widget", TypeDefKind.resource, TypeOwner.world 0⟩ rfl rfl
    (fun _ h => TypeOwner.noConfusion h)).2

theorem type_id_some (ty : Ty) (i : TypeId) (h : ty.type_id = some i) :
    ty = Ty.id i := by
  cases ty <;> simp [Ty.type_id] at h
  rw [h]

theorem valid_of_variant_kind (resolve : Resolve) (hWF : resolve.WF = true)
    {t : Ty} {cases_ : List Case} (h : resolvesToVariant resolve t cases_) :
    ∀ c ∈ cases_, ∀ ty, c.ty = some ty → ty.validIn resolve = true := by
  obtain ⟨i, td, rfl, hget, hkind⟩ := h
  have hk := (WF_typeDef_valid resolve hWF i td hget).2
  rw [hkind] at hk
  simp only [TypeDefKind.validIn, List.all_eq_true] at hk
  intro c hc ty hty
  have hcase := hk c hc
  rw [hty] at hcase
  simpa using hcase

theorem collectHandleDefs_eq_spec (resolve : Resolve) (hWF : resolve.WF = true)
    (cases_ : List Case)
    (hv : ∀ c ∈ cases_, ∀ ty, c.ty = some ty → ty.validIn resolve = true) :
    collectHandleDefs resolve cases_
      = Except.ok (collectedOwnedHandleDefs resolve cases_) := by
  induction cases_ with
  | nil => rfl
  | cons c rest ih =>
    have hrest := ih (fun c' hc' ty hty => hv c' (List.mem_cons_of_mem _ hc') ty hty)
    have hhead : (match c.ty with
        | Option.none => Except.ok (Option.none : Option TypeDef)
        | some ty =>
          match ty.type_def resolve with
          | Except.error e => Except.error e
          | Except.ok Option.none => Except.ok Option.none
          | Except.ok (some type_def) =>
            match type_def.kind with
            | TypeDefKind.handle (Handle.own type_id) =>
              (Ty.id type_id).type_def resolve
            | _ => Except.ok Option.none)
        = Except.ok (c.ty.bind fun ty =>
            ty.type_id.bind fun i =>
              (resolve.types.get? i).bind fun td =>
                match td.kind with
                | TypeDefKind.handle (Handle.own j) => resolve.types.get? j
                | _ => Option.none) := by
      cases hcty : c.ty with
      | none => rfl
      | some ty =>
        have htyv := hv c (List.mem_cons_self _ _) ty hcty
        cases hti : ty.type_id with
        | none =>
          have htd : ty.type_def resolve = Except.ok Option.none := by
            simp [Ty.type_def, hti]
          simp [htd, hti]
        | some i =>
          have hid : ty = Ty.id i := type_id_some ty i hti
          subst hid
          simp only [Ty.validIn, decide_eq_true_eq] at htyv
          obtain ⟨td, harena, hget⟩ := arenaGet_total resolve.types i htyv
          have htd : (Ty.id i).type_def resolve = Except.ok (some td) := by
            simp [Ty.type_def, Ty.type_id, harena]
          have hgeq : resolve.types[i]? = some td :=
            (List.get?_eq_getElem? _ _).symm.trans hget
          cases hk : td.kind with
          | handle h =>
            cases h with
            | own j =>
              have hkv := (WF_typeDef_valid resolve hWF i td hget).2
              rw [hk] at hkv
              simp only [TypeDefKind.validIn, decide_eq_true_eq] at hkv
              obtain ⟨d, harenaj, hgetj⟩ := arenaGet_total resolve.types j hkv
              have htdj : (Ty.id j).type_def resolve = Except.ok (some d) := by
                simp [Ty.type_def, Ty.type_id, harenaj]
              have hjeq : resolve.types[j]? = some d :=
                (List.get?_eq_getElem? _ _).symm.trans hgetj
              simp [htd, hk, htdj, Ty.type_id, hgeq, hjeq]
            | borrow j =>
              simp [htd, hk, Ty.type_id, hgeq]
          | record => simp [htd, hk, Ty.type_id, hgeq]
          | resource => simp [htd, hk, Ty.type_id, hgeq]
          | flags => simp [htd, hk, Ty.type_id, hgeq]
          | tuple types => simp [htd, hk, Ty.type_id, hgeq]
          | variant cs => simp [htd, hk, Ty.type_id, hgeq]
          | enum => simp [htd, hk, Ty.type_id, hgeq]
          | option t' => simp [htd, hk, Ty.type_id, hgeq]
          | result => simp [htd, hk, Ty.type_id, hgeq]
          | list t' => simp [htd, hk, Ty.type_id, hgeq]
          | future => simp [htd, hk, Ty.type_id, hgeq]
          | stream => simp [htd, hk, Ty.type_id, hgeq]
          | typeAlias t' => simp [htd, hk, Ty.type_id, hgeq]
          | unknown => simp [htd, hk, Ty.type_id, hgeq]
    simp only [collectHandleDefs]
    rw [hhead, hrest]
    simp only [collectedOwnedHandleDefs, List.filterMap_cons]
    congr 1
    split
    · rename_i d heq
      rw [heq]
    · rename_i heq
      rw [heq]

/-- C7 counterexample: in `exVariantOwnRecord` the variant's single case's
payload is an owned handle wrapping a `Record` — per the claim, a case with a
non-resource payload is silently dropped, so the collected sequence should be
empty — yet the classifier collects that record's type definition. -/
theorem variant_union_nonresource_collected :
    (Ty.id 0).variant_case_type_defs_where_they_are_all_handles exVariantOwnRecord
      = Except.ok (some [⟨some "rec", TypeDefKind.record, TypeOwner.none⟩])
  ∧ (⟨some "rec", TypeDefKind.record, TypeOwner.none⟩ : TypeDef).kind
      ≠ TypeDefKind.resource :=
  ⟨rfl, by decide⟩

/-- C7 (amended): for a type resolving to a `Variant`, the classifier returns
the type definitions wrapped by the owned-handle payloads of its cases, in
case order, regardless of the wrapped definitions' kinds; cases without a
payload or whose payload does not resolve to an owned handle are silently
dropped, so the sequence may be shorter than the case list and the caller
must compare lengths; a valid type not resolving to a `Variant` yields
`None`. -/
theorem variant_union_amended_spec (resolve : Resolve) (hWF : resolve.WF = true) :
    (∀ t cases_, resolvesToVariant resolve t cases_ →
      t.variant_case_type_defs_where_they_are_all_handles resolve
        = Except.ok (some (collectedOwnedHandleDefs resolve cases_))
      ∧ (collectedOwnedHandleDefs resolve cases_).length ≤ cases_.length)
  ∧ (∀ t, t.validIn resolve = true → (∀ cs, ¬ resolvesToVariant resolve t cs) →
      t.variant_case_type_defs_where_they_are_all_handles resolve
        = Except.ok Option.none) := by
  constructor
  · intro t cases_ hvar
    have hvc := (variant_cases_ok_some_iff resolve t cases_).mpr hvar
    have hcol := collectHandleDefs_eq_spec resolve hWF cases_
      (valid_of_variant_kind resolve hWF hvar)
    constructor
    · simp [Ty.variant_case_type_defs_where_they_are_all_handles, hvc, hcol]
    · exact List.length_filterMap_le _ _
  · intro t hv hnv
    obtain ⟨o, ho⟩ := variant_cases_total resolve t hv
    cases o with
    | none => simp [Ty.variant_case_type_defs_where_they_are_all_handles, ho]
    | some cs =>
      exact absurd ((variant_cases_ok_some_iff resolve t cs).mp ho) (hnv cs)

/-- Witness for the amended C7: the classifier on `exVariantOwnRecord`
collects the wrapped record's definition. -/
theorem variant_union_amended_spec_witness :
    (Ty.id 0).variant_case_type_defs_where_they_are_all_handles exVariantOwnRecord
      = Except.ok (some [⟨some "rec", TypeDefKind.record, TypeOwner.none⟩]) := by
  have h := ((variant_union_amended_spec exVariantOwnRecord (by decide)).1
      (Ty.id 0) [⟨"a", some (Ty.id 1)⟩]
      ⟨0, ⟨some "v", TypeDefKind.variant [⟨"a", some (Ty.id 1)⟩], TypeOwner.none⟩,
        rfl, rfl, rfl⟩).1
  exact h

/-- C9: the variant classifier never inspects the kind of the type an owned
handle points to — for every case whose payload resolves to a type definition
of kind `Handle::Own(j)`, the type definition at `j` is collected into the
result no matter what its kind is (no hypothesis below constrains `d.kind`). -/
theorem variant_union_ignores_wrapped_kind (resolve : Resolve) (t : Ty)
    (cases_ : List Case) (c : Case) (ty : Ty) (i j : TypeId) (td2 d : TypeDef)
    (hWF : resolve.WF = true) (hvar : resolvesToVariant resolve t cases_)
    (hc : c ∈ cases_) (hcty : c.ty = some ty) (hid : ty = Ty.id i)
    (hi : resolve.types.get? i = some td2)
    (hk : td2.kind = TypeDefKind.handle (Handle.own j))
    (hj : resolve.types.get? j = some d) :
    ∃ s, t.variant_case_type_defs_where_they_are_all_handles resolve
        = Except.ok (some s) ∧ d ∈ s := by
  have hvc := (variant_cases_ok_some_iff resolve t cases_).mpr hvar
  have hcol := collectHandleDefs_eq_spec resolve hWF cases_
    (valid_of_variant_kind resolve hWF hvar)
  refine ⟨collectedOwnedHandleDefs resolve cases_, ?_, ?_⟩
  · simp [Ty.variant_case_type_defs_where_they_are_all_handles, hvc, hcol]
  · unfold collectedOwnedHandleDefs
    refine List.mem_filterMap.mpr ⟨c, hc, ?_⟩
    subst hid
    have hieq : resolve.types[i]? = some td2 :=
      (List.get?_eq_getElem? _ _).symm.trans hi
    have hjeq : resolve.types[j]? = some d :=
      (List.get?_eq_getElem? _ _).symm.trans hj
    simp [hcty, Ty.type_id, hieq, hk, hjeq]

/-- Witness for C9: the record-kinded definition wrapped by the owned handle
is a member of the collected sequence. -/
theorem variant_union_ignores_wrapped_kind_witness :
    ∃ s, (Ty.id 0).variant_case_type_defs_where_they_are_all_handles
        exVariantOwnRecord = Except.ok (some s)
      ∧ (⟨some "rec", TypeDefKind.record, TypeOwner.none⟩ : TypeDef) ∈ s :=
  variant_union_ignores_wrapped_kind exVariantOwnRecord (Ty.id 0)
    [⟨"a", some (Ty.id 1)⟩] ⟨"a", some (Ty.id 1)⟩ (Ty.id 1) 1 2
    ⟨Option.none, TypeDefKind.handle (Handle.own 2), TypeOwner.none⟩
    ⟨some "rec", TypeDefKind.record, TypeOwner.none⟩
    (by decide)
    ⟨0, ⟨some "v", TypeDefKind.variant [⟨"a", some (Ty.id 1)⟩], TypeOwner.none⟩,
      rfl, rfl, rfl⟩
    (List.mem_singleton_self _) rfl rfl rfl rfl rfl

theorem typeConfigurationName_total (resolve : Resolve) (hWF : resolve.WF = true)
    (i : TypeId) (hi : i < resolve.types.length) :
    ∃ s, typeConfigurationName resolve i = Except.ok s := by
  obtain ⟨td, harena, hget⟩ := arenaGet_total resolve.types i hi
  have hov := (WF_typeDef_valid resolve hWF i td hget).1
  cases hown : td.owner with
  | world w =>
    rw [hown] at hov
    simp only [TypeOwner.validIn, decide_eq_true_eq] at hov
    obtain ⟨wrld, hwarena, _⟩ := arenaGet_total resolve.worlds w hov
    exact ⟨String.intercalate ":" ([wrld.name] ++ pushIfNamed td.name),
      by simp [typeConfigurationName, harena, hown, hwarena]⟩
  | interface iid =>
    rw [hown] at hov
    simp only [TypeOwner.validIn, decide_eq_true_eq] at hov
    obtain ⟨intf, hia, hia2⟩ := arenaGet_total resolve.interfaces iid hov
    have hiv := WF_interface_valid resolve hWF iid intf hia2
    unfold Interface.validIn at hiv
    rw [Bool.and_eq_true] at hiv
    cases hpkg : intf.package with
    | none =>
      exact ⟨String.intercalate ":" (pushIfNamed intf.name ++ pushIfNamed td.name),
        by simp [typeConfigurationName, harena, hown, hia, hpkg]⟩
    | some pid =>
      have hpid : pid < resolve.packages.length := by
        have h1 := hiv.1
        rw [hpkg] at h1
        simpa using h1
      obtain ⟨pkg, hpa, _⟩ := arenaGet_total resolve.packages pid hpid
      exact ⟨String.intercalate ":"
          (([pkg.name.ns, pkg.name.name] ++ pushIfNamed intf.name) ++ pushIfNamed td.name),
        by simp [typeConfigurationName, harena, hown, hia, hpkg, hpa]⟩
  | none =>
    exact ⟨String.intercalate ":" (pushIfNamed td.name),
      by simp [typeConfigurationName, harena, hown]⟩

theorem functionConfigurationName_total (resolve : Resolve) (hWF : resolve.WF = true)
    (f : Func) (hv : f.validIn resolve = true) :
    ∃ s, functionConfigurationName resolve f = Except.ok s := by
  unfold Func.validIn at hv
  rw [Bool.and_eq_true] at hv
  cases hk : f.kind with
  | freestanding => exact ⟨f.item_name, by simp [functionConfigurationName, hk]⟩
  | method tid =>
    have htid : tid < resolve.types.length := by
      have h1 := hv.1
      rw [hk] at h1
      simpa using h1
    obtain ⟨p, hp⟩ := typeConfigurationName_total resolve hWF tid htid
    exact ⟨p ++ "." ++ f.item_name ++ "()", by simp [functionConfigurationName, hk, hp]⟩
  | static tid =>
    have htid : tid < resolve.types.length := by
      have h1 := hv.1
      rw [hk] at h1
      simpa using h1
    obtain ⟨p, hp⟩ := typeConfigurationName_total resolve hWF tid htid
    exact ⟨p ++ "." ++ f.item_name ++ "()", by simp [functionConfigurationName, hk, hp]⟩
  | constructor tid =>
    have htid : tid < resolve.types.length := by
      have h1 := hv.1
      rw [hk] at h1
      simpa using h1
    obtain ⟨p, hp⟩ := typeConfigurationName_total resolve hWF tid htid
    exact ⟨p ++ "." ++ f.item_name ++ "()", by simp [functionConfigurationName, hk, hp]⟩

theorem configuration_name_total (resolve : Resolve) (hWF : resolve.WF = true)
    (e : Element) (hv : e.validIn resolve = true) :
    ∃ s, e.configuration_name resolve = Except.ok s := by
  cases e with
  | type i =>
    simp only [Element.validIn, decide_eq_true_eq] at hv
    exact typeConfigurationName_total resolve hWF i hv
  | function f =>
    exact functionConfigurationName_total resolve hWF f hv

theorem methods_of_resource_total (resolve : Resolve) (hWF : resolve.WF = true)
    (t : Ty) (hv : t.validIn resolve = true) :
    ∃ o, t.methods_of_resource resolve = Except.ok o := by
  cases t <;> try exact ⟨Option.none, rfl⟩
  rename_i i
  simp only [Ty.validIn, decide_eq_true_eq] at hv
  obtain ⟨td, harena, hget⟩ := arenaGet_total resolve.types i hv
  cases hown : td.owner with
  | world w =>
    exact ⟨Option.none, by simp [Ty.methods_of_resource, Ty.type_id, harena, hown]⟩
  | none =>
    exact ⟨Option.none, by simp [Ty.methods_of_resource, Ty.type_id, harena, hown]⟩
  | interface iid =>
    have hov := (WF_typeDef_valid resolve hWF i td hget).1
    rw [hown] at hov
    simp only [TypeOwner.validIn, decide_eq_true_eq] at hov
    obtain ⟨intf, hia, _⟩ := arenaGet_total resolve.interfaces iid hov
    exact ⟨some (intf.functions.filterMap fun p =>
        if FunctionKind.method i = p.2.kind then some p.2 else Option.none),
      by simp [Ty.methods_of_resource, Ty.type_id, harena, hown, hia]⟩

theorem methods_of_resource_members_valid (resolve : Resolve) (hWF : resolve.WF = true)
    (t : Ty) (ms : List Func)
    (h : t.methods_of_resource resolve = Except.ok (some ms)) :
    ∀ m ∈ ms, m.validIn resolve = true := by
  cases t with
  | bool => simp [Ty.methods_of_resource, Ty.type_id] at h
  | u8 => simp [Ty.methods_of_resource, Ty.type_id] at h
  | u16 => simp [Ty.methods_of_resource, Ty.type_id] at h
  | u32 => simp [Ty.methods_of_resource, Ty.type_id] at h
  | u64 => simp [Ty.methods_of_resource, Ty.type_id] at h
  | s8 => simp [Ty.methods_of_resource, Ty.type_id] at h
  | s16 => simp [Ty.methods_of_resource, Ty.type_id] at h
  | s32 => simp [Ty.methods_of_resource, Ty.type_id] at h
  | s64 => simp [Ty.methods_of_resource, Ty.type_id] at h
  | f32 => simp [Ty.methods_of_resource, Ty.type_id] at h
  | f64 => simp [Ty.methods_of_resource, Ty.type_id] at h
  | char => simp [Ty.methods_of_resource, Ty.type_id] at h
  | string => simp [Ty.methods_of_resource, Ty.type_id] at h
  | id i =>
  cases hg : resolve.types.get? i with
  | none =>
    have hres : (Ty.id i).methods_of_resource resolve
        = Except.error "arena index out of bounds" := by
      simp [Ty.methods_of_resource, Ty.type_id, arenaGet_eq_error _ _ hg]
    rw [hres] at h
    exact absurd h (by simp)
  | some td =>
    cases hown : td.owner with
    | world w =>
      have hres : (Ty.id i).methods_of_resource resolve = Except.ok Option.none := by
        simp [Ty.methods_of_resource, Ty.type_id, arenaGet_eq_ok _ _ _ hg, hown]
      rw [hres] at h
      exact absurd h (by simp)
    | none =>
      have hres : (Ty.id i).methods_of_resource resolve = Except.ok Option.none := by
        simp [Ty.methods_of_resource, Ty.type_id, arenaGet_eq_ok _ _ _ hg, hown]
      rw [hres] at h
      exact absurd h (by simp)
    | interface iid =>
      cases hia : resolve.interfaces.get? iid with
      | none =>
        have hres : (Ty.id i).methods_of_resource resolve
            = Except.error "arena index out of bounds" := by
          simp [Ty.methods_of_resource, Ty.type_id, arenaGet_eq_ok _ _ _ hg, hown,
            arenaGet_eq_error _ _ hia]
        rw [hres] at h
        exact absurd h (by simp)
      | some intf =>
        have heq := methods_of_resource_eq resolve i td iid intf hg hown hia
        rw [heq] at h
        have hms : ms = (intf.functions.map Prod.snd).filter
            (fun f => decide (f.kind = FunctionKind.method i)) := by
          simpa using h.symm
        intro m hm
        rw [hms] at hm
        exact interface_member_valid resolve hWF iid intf hia m
          (List.mem_filter.mp hm).1

theorem payload_type_total (resolve : Resolve) (hWF : resolve.WF = true)
    (t : Ty) (hv : t.validIn resolve = true) :
    ∃ o, t.payload_type_of_option_result_of_next_method_of_resource resolve
      = Except.ok o := by
  obtain ⟨o, hm⟩ := methods_of_resource_total resolve hWF t hv
  cases o with
  | none =>
    exact ⟨Option.none,
      by simp [Ty.payload_type_of_option_result_of_next_method_of_resource, hm]⟩
  | some methods =>
    cases hf : methods.find? (fun method => decide (method.item_name = "next")) with
    | none =>
      exact ⟨Option.none,
        by simp [Ty.payload_type_of_option_result_of_next_method_of_resource, hm, hf]⟩
    | some m =>
      by_cases hlen : m.results.length = 1
      · obtain ⟨ty, hres1⟩ := List.length_eq_one.mp hlen
        have hmv := methods_of_resource_members_valid resolve hWF t methods hm m
          (List.mem_of_find?_eq_some hf)
        have htyv : ty.validIn resolve = true :=
          func_results_valid resolve m hmv
            (by rw [hres1]; exact List.mem_singleton_self ty)
        obtain ⟨o, hop⟩ := option_payload_type_total resolve ty htyv
        exact ⟨o, by simp [Ty.payload_type_of_option_result_of_next_method_of_resource,
          hm, hf, hres1, hop]⟩
      · exact ⟨Option.none,
          by simp [Ty.payload_type_of_option_result_of_next_method_of_resource, hm, hf,
            hlen]⟩

theorem variant_union_total (resolve : Resolve) (hWF : resolve.WF = true)
    (t : Ty) (hv : t.validIn resolve = true) :
    ∃ o, t.variant_case_type_defs_where_they_are_all_handles resolve = Except.ok o := by
  obtain ⟨o, ho⟩ := variant_cases_total resolve t hv
  cases o with
  | none =>
    exact ⟨Option.none,
      by simp [Ty.variant_case_type_defs_where_they_are_all_handles, ho]⟩
  | some cs =>
    have hvar := (variant_cases_ok_some_iff resolve t cs).mp ho
    have hcol := collectHandleDefs_eq_spec resolve hWF cs
      (valid_of_variant_kind resolve hWF hvar)
    exact ⟨some (collectedOwnedHandleDefs resolve cs),
      by simp [Ty.variant_case_type_defs_where_they_are_all_handles, ho, hcol]⟩

/-- C8: on a well-formed graph, every exposed operation — path computation,
`get`, `get_member`, the six flag accessors, and the four classifier
queries — is total: no valid input produces a failure value (`Except.error`,
the model of a Rust panic); a classifier faced with a non-matching
structural shape returns `Option.none` inside `Except.ok` rather than an
error. -/
theorem operations_total_on_wellformed_graph (resolve : Resolve) (c : Configuration)
    (hWF : resolve.WF = true) :
    (∀ e : Element, e.validIn resolve = true →
      (∃ s, e.configuration_name resolve = Except.ok s)
      ∧ (∃ v, c.get resolve e = Except.ok v)
      ∧ (∀ m, ∃ v, c.get_member resolve e m = Except.ok v))
  ∧ (∀ v : ElementConfig,
      (v.enum_as_typescript_enum = true ∨ v.enum_as_typescript_enum = false)
      ∧ (v.record_as_class = true ∨ v.record_as_class = false)
      ∧ (v.resource_as_iterator = true ∨ v.resource_as_iterator = false)
      ∧ (v.resource_use_guest_class = true ∨ v.resource_use_guest_class = false)
      ∧ (v.variant_as_direct_union_of_resource_classes = true
          ∨ v.variant_as_direct_union_of_resource_classes = false)
      ∧ (v.list_of_tuple_as_dictionary = true ∨ v.list_of_tuple_as_dictionary = false))
  ∧ (∀ t : Ty, t.validIn resolve = true →
      (∃ o, t.value_type_of_list_of_tuple_interpretable_as_dictionary resolve
        = Except.ok o)
      ∧ (∃ o, t.payload_type_of_option_result_of_next_method_of_resource resolve
        = Except.ok o)
      ∧ (∃ o, t.variant_case_type_defs_where_they_are_all_handles resolve
        = Except.ok o)
      ∧ (∃ o, t.methods_of_resource resolve = Except.ok o)) := by
  refine ⟨?_, ?_, ?_⟩
  · intro e hv
    obtain ⟨s, hs⟩ := configuration_name_total resolve hWF e hv
    refine ⟨⟨s, hs⟩, ?_, ?_⟩
    · exact ⟨Option.getD (c.mappings.lookup s) ElementConfig.none,
        by simp [Configuration.get, hs]⟩
    · intro m
      exact ⟨Option.getD (c.mappings.lookup (s ++ "." ++ m)) ElementConfig.none,
        by simp [Configuration.get_member, hs]⟩
  · intro v
    exact ⟨Bool.eq_false_or_eq_true _, Bool.eq_false_or_eq_true _,
      Bool.eq_false_or_eq_true _, Bool.eq_false_or_eq_true _,
      Bool.eq_false_or_eq_true _, Bool.eq_false_or_eq_true _⟩
  · intro t hv
    exact ⟨dictionary_classifier_total resolve hWF t hv,
      payload_type_total resolve hWF t hv,
      variant_union_total resolve hWF t hv,
      methods_of_resource_total resolve hWF t hv⟩

/-- Witness for C8 on a concrete well-formed graph: `get` on an unconfigured
element and the iterator classifier both return `ok` values. -/
theorem operations_total_on_wellformed_graph_witness :
    (∃ v, Configuration.get ⟨[]⟩ exIterResolve (Element.type 0) = Except.ok v)
  ∧ (∃ o, (Ty.id 0).payload_type_of_option_result_of_next_method_of_resource
        exIterResolve = Except.ok o) :=
  ⟨((operations_total_on_wellformed_graph exIterResolve ⟨[]⟩ (by decide)).1
      (Element.type 0) (by decide)).2.1,
   ((operations_total_on_wellformed_graph exIterResolve ⟨[]⟩ (by decide)).2.2
      (Ty.id 0) (by decide)).2.1⟩
